import Mathlib

/-!
Verification development for the RecipeMaster ingestion, identifier-assignment,
dialect-normalization and filter/pagination core (src/utils.py).

The Python code is shallowly embedded:
* JSON values (the result of `json.load`) are modelled by the inductive `Json`.
  JSON numbers are modelled as integers (the recipe corpus uses integer ids;
  floating point is out of scope).
* Python dictionaries are association lists `List (String × Json)` (keys are
  unique in dictionaries produced by `json.load`; lookup takes the first match).
* Python `==` identifies `True` with `1` and `False` with `0`; this is captured
  by comparing images under `jsonKey`.  Set membership (`in seen_ids`) uses this
  equality.  Unhashable values (lists, dicts) raise `TypeError` when tested for
  set membership; the embedding tracks this explicitly.
* Exceptions are modelled by `Option`/dedicated result types; the unbounded
  `while` loop of `generate_unique_id` is modelled with fuel 1000000 (the cycle
  length of the probe sequence): the fuel runs out exactly when the Python loop
  diverges, namely when all of [1, 1000000] is already taken.
* `load_recipes` takes `Option (List SourceFile)`: `none` is an absent data
  directory, which `os.makedirs` turns into an (empty) directory, so it behaves
  exactly like `some []`.  `glob` discovery order is the list order.
* The `FileNotFoundError` / `ValueError` raised by the loader (re-wrapped in a
  generic `Exception` by the outer handler, preserving the message) are the
  `NotFound` / `NoValidRecords` conditions of the spec, modelled by `LoadError`.
* The search stage of `filter_recipes` goes through pandas `str.contains`
  with its default `regex=True`: the lowered term is compiled as a regular
  expression and an invalid pattern raises `re.error` out of
  `filter_recipes`.  A group-free fragment of Python's pattern language is
  modelled concretely (see `reCompile`), and the error is an `Option` `none`
  threaded through `applyFilters` and `filter_recipes`.
-/

/-- JSON values as produced by `json.load`. -/
inductive Json where
  | null
  | bool (b : Bool)
  | num (n : Int)
  | str (s : String)
  | arr (elems : List Json)
  | obj (fields : List (String × Json))
deriving Repr

mutual

def jsonBEq : Json → Json → Bool
  | .null, .null => true
  | .bool a, .bool b => a == b
  | .num a, .num b => a == b
  | .str a, .str b => a == b
  | .arr xs, .arr ys => jsonListBEq xs ys
  | .obj xs, .obj ys => jsonFieldsBEq xs ys
  | _, _ => false

def jsonListBEq : List Json → List Json → Bool
  | [], [] => true
  | x :: xs, y :: ys => jsonBEq x y && jsonListBEq xs ys
  | _, _ => false

def jsonFieldsBEq : List (String × Json) → List (String × Json) → Bool
  | [], [] => true
  | (k, v) :: xs, (k2, v2) :: ys => k == k2 && jsonBEq v v2 && jsonFieldsBEq xs ys
  | _, _ => false

end

mutual

def jsonBEq_iff : (a : Json) → (b : Json) → (jsonBEq a b = true ↔ a = b)
  | .null, .null => by simp [jsonBEq]
  | .bool a, .bool b => by simp [jsonBEq]
  | .num a, .num b => by simp [jsonBEq]
  | .str a, .str b => by simp [jsonBEq]
  | .arr xs, .arr ys => by
      simp only [jsonBEq, Json.arr.injEq]
      exact jsonListBEq_iff xs ys
  | .obj xs, .obj ys => by
      simp only [jsonBEq, Json.obj.injEq]
      exact jsonFieldsBEq_iff xs ys
  | .null, .bool _ | .null, .num _ | .null, .str _ | .null, .arr _ | .null, .obj _
  | .bool _, .null | .bool _, .num _ | .bool _, .str _ | .bool _, .arr _ | .bool _, .obj _
  | .num _, .null | .num _, .bool _ | .num _, .str _ | .num _, .arr _ | .num _, .obj _
  | .str _, .null | .str _, .bool _ | .str _, .num _ | .str _, .arr _ | .str _, .obj _
  | .arr _, .null | .arr _, .bool _ | .arr _, .num _ | .arr _, .str _ | .arr _, .obj _
  | .obj _, .null | .obj _, .bool _ | .obj _, .num _ | .obj _, .str _ | .obj _, .arr _ => by
      simp [jsonBEq]

def jsonListBEq_iff : (xs : List Json) → (ys : List Json) →
    (jsonListBEq xs ys = true ↔ xs = ys)
  | [], [] => by simp [jsonListBEq]
  | x :: xs, y :: ys => by
      simp only [jsonListBEq, Bool.and_eq_true, List.cons.injEq]
      exact and_congr (jsonBEq_iff x y) (jsonListBEq_iff xs ys)
  | [], _ :: _ => by simp [jsonListBEq]
  | _ :: _, [] => by simp [jsonListBEq]

def jsonFieldsBEq_iff : (xs : List (String × Json)) → (ys : List (String × Json)) →
    (jsonFieldsBEq xs ys = true ↔ xs = ys)
  | [], [] => by simp [jsonFieldsBEq]
  | (k, v) :: xs, (k2, v2) :: ys => by
      simp only [jsonFieldsBEq, Bool.and_eq_true, List.cons.injEq, Prod.mk.injEq, beq_iff_eq]
      rw [jsonBEq_iff v v2, jsonFieldsBEq_iff xs ys, and_assoc]
  | [], _ :: _ => by simp [jsonFieldsBEq]
  | _ :: _, [] => by simp [jsonFieldsBEq]

end

instance : DecidableEq Json := fun a b => decidable_of_iff (jsonBEq a b = true) (jsonBEq_iff a b)

mutual

/-- Canonical key under Python equality: `True == 1` and `False == 0`, so
booleans are mapped to the corresponding integers (recursively). -/
def jsonKey : Json → Json
  | .null => .null
  | .bool b => .num (if b then 1 else 0)
  | .num n => .num n
  | .str s => .str s
  | .arr xs => .arr (jsonKeyList xs)
  | .obj kvs => .obj (jsonKeyFields kvs)

def jsonKeyList : List Json → List Json
  | [] => []
  | x :: xs => jsonKey x :: jsonKeyList xs

def jsonKeyFields : List (String × Json) → List (String × Json)
  | [] => []
  | (k, v) :: kvs => (k, jsonKey v) :: jsonKeyFields kvs

end

/-- Python `==` on JSON values. -/
def pyEq (a b : Json) : Bool := decide (jsonKey a = jsonKey b)

/-- Python `v in s` for a set `s` of previously seen (hashable) values. -/
def pyMem (v : Json) (s : List Json) : Bool := s.any (fun w => pyEq v w)

/-- Whether a value may be put in a Python set (lists and dicts raise
`TypeError: unhashable type`). -/
def isHashable : Json → Bool
  | .arr _ => false
  | .obj _ => false
  | _ => true

/-- Python `d.get(key)` on a dictionary: first binding of the key, if any. -/
def Json.get (fields : List (String × Json)) (key : String) : Option Json :=
  (fields.find? (fun kv => kv.1 == key)).map (fun kv => kv.2)

/-- Python `key in d`. -/
def Json.hasKey (fields : List (String × Json)) (key : String) : Bool :=
  fields.any (fun kv => kv.1 == key)

/-- Python `d[key] = v`: replace in place if the key exists, else append. -/
def setKey : List (String × Json) → String → Json → List (String × Json)
  | [], key, v => [(key, v)]
  | kv :: rest, key, v =>
      if kv.1 == key then (key, v) :: rest else kv :: setKey rest key v

/-- Character-level substring occurrence test. -/
def containsChars (pat : List Char) : List Char → Bool
  | [] => pat.isEmpty
  | c :: rest => pat.isPrefixOf (c :: rest) || containsChars pat rest

/-- Python substring test `pat in s` (for the fixed non-empty markers used by
the loader and the search filter). -/
def containsSub (s pat : String) : Bool := containsChars pat.data s.data

/-- Python `str.replace` over character lists: scan left to right, replacing
non-overlapping occurrences.  The fuel (instantiated with the input length) is
only a structural-recursion device; it never runs out for the non-empty
patterns used here. -/
def replaceChars (pat rep : List Char) : Nat → List Char → List Char
  | 0, l => l
  | _ + 1, [] => []
  | fuel + 1, c :: rest =>
      if pat.isPrefixOf (c :: rest) && !pat.isEmpty then
        rep ++ replaceChars pat rep fuel (List.drop pat.length (c :: rest))
      else c :: replaceChars pat rep fuel rest

/-- Python `s.replace(pat, rep)` for a non-empty pattern. -/
def pyReplace (s pat rep : String) : String :=
  String.mk (replaceChars pat.data rep.data s.data.length s.data)

/-- Python `s.lower()` (ASCII case folding; the fixed markers and the recipe
corpus are ASCII). -/
def strLower (s : String) : String := String.mk (s.data.map Char.toLower)

mutual

/-- Python `repr` of a JSON value (string escaping inside quotes is not
reproduced; no property below depends on it). -/
def pyRepr : Json → String
  | .null => "None"
  | .bool b => if b then "True" else "False"
  | .num n => toString n
  | .str s => "\x27" ++ s ++ "\x27"
  | .arr xs => "[" ++ pyReprList xs ++ "]"
  | .obj kvs => "\x7b" ++ pyReprFields kvs ++ "\x7d"

def pyReprList : List Json → String
  | [] => ""
  | [x] => pyRepr x
  | x :: y :: rest => pyRepr x ++ ", " ++ pyReprList (y :: rest)

def pyReprFields : List (String × Json) → String
  | [] => ""
  | [(k, v)] => "\x27" ++ k ++ "\x27: " ++ pyRepr v
  | (k, v) :: kv :: rest => "\x27" ++ k ++ "\x27: " ++ pyRepr v ++ ", " ++ pyReprFields (kv :: rest)

end

/-- Python `str` / f-string interpolation of a JSON value. -/
def pyStr : Json → String
  | .str s => s
  | v => pyRepr v

/-- All-string list concatenation helper for `pyJoinStrings`. -/
def joinStrList : List Json → Option String
  | [] => some ""
  | .str s :: rest => (joinStrList rest).map (fun r => s ++ r)
  | _ => none

/-- Python `''.join(x)`: joins an iterable of strings.  Iterating a string
yields its characters, iterating a dict yields its keys; any non-string
element (or non-iterable value) raises `TypeError`, modelled as `none`. -/
def pyJoinStrings : Json → Option String
  | .str s => some s
  | .arr xs => joinStrList xs
  | .obj kvs => some (String.join (kvs.map (fun kv => kv.1)))
  | _ => none

/-! MD5 (RFC 1321) over byte lists, used by `generate_unique_id` via
`int(hashlib.md5(content).hexdigest(), 16)`.  All arithmetic is on `Nat`
reduced modulo 2^32. -/

def m32 (n : Nat) : Nat := n % 4294967296

def bnot32 (x : Nat) : Nat := 4294967295 - x

def rotl32 (x s : Nat) : Nat := m32 (x * 2 ^ s) + x / 2 ^ (32 - s)

def md5K : List Nat :=
  [0xd76aa478, 0xe8c7b756, 0x242070db, 0xc1bdceee,
   0xf57c0faf, 0x4787c62a, 0xa8304613, 0xfd469501,
   0x698098d8, 0x8b44f7af, 0xffff5bb1, 0x895cd7be,
   0x6b901122, 0xfd987193, 0xa679438e, 0x49b40821,
   0xf61e2562, 0xc040b340, 0x265e5a51, 0xe9b6c7aa,
   0xd62f105d, 0x02441453, 0xd8a1e681, 0xe7d3fbc8,
   0x21e1cde6, 0xc33707d6, 0xf4d50d87, 0x455a14ed,
   0xa9e3e905, 0xfcefa3f8, 0x676f02d9, 0x8d2a4c8a,
   0xfffa3942, 0x8771f681, 0x6d9d6122, 0xfde5380c,
   0xa4beea44, 0x4bdecfa9, 0xf6bb4b60, 0xbebfbc70,
   0x289b7ec6, 0xeaa127fa, 0xd4ef3085, 0x04881d05,
   0xd9d4d039, 0xe6db99e5, 0x1fa27cf8, 0xc4ac5665,
   0xf4292244, 0x432aff97, 0xab9423a7, 0xfc93a039,
   0x655b59c3, 0x8f0ccc92, 0xffeff47d, 0x85845dd1,
   0x6fa87e4f, 0xfe2ce6e0, 0xa3014314, 0x4e0811a1,
   0xf7537e82, 0xbd3af235, 0x2ad7d2bb, 0xeb86d391]

def md5S : List Nat :=
  [7, 12, 17, 22, 7, 12, 17, 22, 7, 12, 17, 22, 7, 12, 17, 22,
   5, 9, 14, 20, 5, 9, 14, 20, 5, 9, 14, 20, 5, 9, 14, 20,
   4, 11, 16, 23, 4, 11, 16, 23, 4, 11, 16, 23, 4, 11, 16, 23,
   6, 10, 15, 21, 6, 10, 15, 21, 6, 10, 15, 21, 6, 10, 15, 21]

/-- Little-endian byte decomposition, `k` bytes. -/
def leBytes : Nat → Nat → List Nat
  | 0, _ => []
  | k + 1, n => n % 256 :: leBytes k (n / 256)

/-- Value of a little-endian byte list. -/
def leVal (bs : List Nat) : Nat := bs.foldr (fun b acc => b + 256 * acc) 0

def md5Pad (msg : List Nat) : List Nat :=
  msg ++ [128] ++ List.replicate ((119 - msg.length % 64) % 64) 0
    ++ leBytes 8 (msg.length * 8)

def md5Round (M : List Nat) (st : Nat × Nat × Nat × Nat) (i : Nat) : Nat × Nat × Nat × Nat :=
  let (a, b, c, d) := st
  let fg : Nat × Nat :=
    if i < 16 then (Nat.lor (Nat.land b c) (Nat.land (bnot32 b) d), i)
    else if i < 32 then (Nat.lor (Nat.land d b) (Nat.land (bnot32 d) c), (5 * i + 1) % 16)
    else if i < 48 then (Nat.xor (Nat.xor b c) d, (3 * i + 5) % 16)
    else (Nat.xor c (Nat.lor b (bnot32 d)), (7 * i) % 16)
  let f := m32 (fg.1 + a + md5K.getD i 0 + M.getD fg.2 0)
  (d, m32 (b + rotl32 f (md5S.getD i 0)), b, c)

def md5Chunk (st : Nat × Nat × Nat × Nat) (chunk : List Nat) : Nat × Nat × Nat × Nat :=
  let M := (List.range 16).map (fun j => leVal ((chunk.drop (4 * j)).take 4))
  let r := (List.range 64).foldl (md5Round M) st
  (m32 (st.1 + r.1), m32 (st.2.1 + r.2.1), m32 (st.2.2.1 + r.2.2.1), m32 (st.2.2.2 + r.2.2.2))

/-- The 16-byte MD5 digest of a byte list. -/
def md5Bytes (msg : List Nat) : List Nat :=
  let padded := md5Pad msg
  let r := ((List.range (padded.length / 64)).map
    (fun i => (padded.drop (64 * i)).take 64)).foldl md5Chunk
      (0x67452301, 0xefcdab89, 0x98badcfe, 0x10325476)
  leBytes 4 r.1 ++ leBytes 4 r.2.1 ++ leBytes 4 r.2.2.1 ++ leBytes 4 r.2.2.2

/-- Python `int(hashlib.md5(msg).hexdigest(), 16)`: the digest bytes read as a
big-endian integer. -/
def md5Nat (msg : List Nat) : Nat := (md5Bytes msg).foldl (fun acc b => acc * 256 + b) 0

/-- UTF-8 encoding of a code point. -/
def utf8Char (c : Nat) : List Nat :=
  if c < 128 then [c]
  else if c < 2048 then [192 + c / 64, 128 + c % 64]
  else if c < 65536 then [224 + c / 4096, 128 + c / 64 % 64, 128 + c % 64]
  else [240 + c / 262144, 128 + c / 4096 % 64, 128 + c / 64 % 64, 128 + c % 64]

/-- Python `s.encode('utf-8')`. -/
def strBytes (s : String) : List Nat := (s.data.map (fun c => utf8Char c.toNat)).flatten

/-! The identifier assigner (`generate_unique_id`, src/utils.py lines 112-124). -/

/-- The `while new_id in seen_ids` probe loop: increment, wrapping from
1000001 back to 1.  The probe sequence starting inside [1, 1000000] cycles
through all 1000000 values of [1, 1000000], so fuel 1000000 is exhausted
exactly when every value of [1, 1000000] is in `seen` — exactly when the
Python loop diverges. -/
def probeId (seen : List Json) : Nat → Nat → Option Nat
  | 0, _ => none
  | fuel + 1, cur =>
      if pyMem (Json.num cur) seen then
        probeId seen fuel (if cur + 1 > 1000000 then 1 else cur + 1)
      else some cur

inductive GenResult where
  | found (newId : Nat)
  | typeError
  | hang
deriving DecidableEq, Repr

/-- `generate_unique_id(recipe, seen_ids)`: hash of
`f"{recipe['name']}{''.join(recipe['ingredients'])}"` encoded as UTF-8,
reduced mod 1000000 plus 1, then linear probing.  A missing key or an
unjoinable `ingredients` value raises (`typeError`); a full id space makes
the loop spin forever (`hang`). -/
def generate_unique_id (recipe : List (String × Json)) (seen : List Json) : GenResult :=
  match Json.get recipe "name", Json.get recipe "ingredients" with
  | some nameVal, some ingVal =>
      match pyJoinStrings ingVal with
      | some joined =>
          let baseId := md5Nat (strBytes (pyStr nameVal ++ joined)) % 1000000 + 1
          match probeId seen 1000000 baseId with
          | some newId => .found newId
          | none => .hang
      | none => .typeError
  | _, _ => .typeError

/-! The dialect normalizer (`parse_filipino_recipe`, src/utils.py lines 126-142). -/

/-- The bullet-glyph artifact stripped by the source: the literal in the code
is the mis-encoded form of the glyph (bytes U+00E2, U+2013, U+00A2, space),
not the correctly decoded glyph U+25A2. -/
def bulletArtifact : String := "â–¢ "

/-- Python `ing.replace('â–¢ ', '')` (replaces every occurrence). -/
def stripGlyph (s : String) : String := pyReplace s bulletArtifact ""

/-- Elementwise strip over a Python list; a non-string element has no
`.replace` and raises `AttributeError` (`none`). -/
def stripAllStr : List Json → Option (List Json)
  | [] => some []
  | .str s :: rest => (stripAllStr rest).map (fun r => Json.str (stripGlyph s) :: r)
  | _ => none

/-- The comprehension `[ing.replace('â–¢ ', '') for ing in v]`: iterating a
string yields its one-character strings, iterating a dict yields its keys;
non-iterable values raise `TypeError` (`none`). -/
def filipinoIngredients : Json → Option (List Json)
  | .arr xs => stripAllStr xs
  | .str s => some (s.data.map (fun c => Json.str (stripGlyph (String.mk [c]))))
  | .obj kvs => some (kvs.map (fun kv => Json.str (stripGlyph kv.1)))
  | _ => none

/-- `parse_filipino_recipe(recipe)`; `none` models an exception escaping to the
per-file handler. -/
def parse_filipino_recipe (recipe : List (String × Json)) : Option (List (String × Json)) :=
  match filipinoIngredients ((Json.get recipe "ingredients").getD (Json.arr [])) with
  | none => none
  | some ings => some
      [("name", (Json.get recipe "title").getD (Json.str "Unknown Filipino Recipe")),
       ("difficulty", Json.str "Medium"),
       ("prep_time", Json.str "15 minutes"),
       ("cook_time", (Json.get recipe "cooking_time").getD (Json.str "30 minutes")),
       ("servings", (Json.get recipe "servings").getD (Json.str "4")),
       ("ingredients", Json.arr ings),
       ("instructions", (Json.get recipe "instructions").getD (Json.arr [])),
       ("categories", Json.arr [(Json.get recipe "category").getD (Json.str "Filipino Dishes")])]

/-! The recipe loader (`load_recipes`, src/utils.py lines 9-110). -/

/-- One row appended to `all_recipes` (src/utils.py lines 80-86). -/
structure Row where
  id : Json
  name : Json
  difficulty : Json
  categories : Json
  preview_data : List (String × Json)
deriving DecidableEq, Repr

/-- The non-fatal warnings collected by the loader, one constructor per
`warnings.append` site (messages carry the data interpolated there). -/
inductive Warning where
  | invalidJson (file : String)
  | fileError (file : String)
  | invalidFormat (file : String)
  | missingFields (recipeName : String) (file : String) (missing : List String)
  | autoId (newId : Nat) (recipeName : String) (file : String)
  | duplicateId (oldId : Json) (newId : Nat) (recipeName : String) (file : String)
deriving DecidableEq, Repr

def requiredFields : List String :=
  ["name", "difficulty", "prep_time", "cook_time", "servings", "ingredients", "instructions"]

/-- The dictionary entry appended to `all_recipes` for a validated record with
final id `rid` (all projected keys are present at that point). -/
def mkRow (fields : List (String × Json)) (rid : Json) : Row :=
  ⟨rid, (Json.get fields "name").getD Json.null,
    (Json.get fields "difficulty").getD Json.null,
    (Json.get fields "categories").getD Json.null, fields⟩

/-- Outcome of processing one candidate record: appended to the collection,
skipped with warnings, aborted by an exception (which skips the rest of the
file), or diverging inside `generate_unique_id`. -/
inductive RecResult where
  | added (row : Row) (warns : List Warning) (seen2 : List Json)
  | skipped (warns : List Warning)
  | failed
  | hang
deriving Repr

/-- Resolution of the record's id (src/utils.py lines 62-86): `recipe.get('id')`
is `None` (key absent or JSON null) → generate and warn; present but already
seen → generate a fresh id and warn; an unhashable id raises `TypeError` at
the `in seen_ids` test; otherwise the explicit id is kept.  The final id is
registered in `seen_ids` and the row is appended. -/
def resolveId (filePath : String) (seen : List Json)
    (fields2 : List (String × Json)) : RecResult :=
  if (Json.get fields2 "id").getD Json.null = Json.null then
    match generate_unique_id fields2 seen with
    | .found newId =>
        .added (mkRow (setKey fields2 "id" (Json.num newId)) (Json.num newId))
          [Warning.autoId newId (pyStr ((Json.get fields2 "name").getD Json.null)) filePath]
          (Json.num newId :: seen)
    | .typeError => .failed
    | .hang => .hang
  else if isHashable ((Json.get fields2 "id").getD Json.null) then
    if pyMem ((Json.get fields2 "id").getD Json.null) seen then
      match generate_unique_id fields2 seen with
      | .found newId =>
          .added (mkRow (setKey fields2 "id" (Json.num newId)) (Json.num newId))
            [Warning.duplicateId ((Json.get fields2 "id").getD Json.null) newId
              (pyStr ((Json.get fields2 "name").getD Json.null)) filePath]
            (Json.num newId :: seen)
      | .typeError => .failed
      | .hang => .hang
    else
      .added (mkRow fields2 ((Json.get fields2 "id").getD Json.null)) []
        (((Json.get fields2 "id").getD Json.null) :: seen)
  else .failed

/-- The body of `for recipe in recipes` (src/utils.py lines 40-86): shape
check, optional dialect normalization, required-field validation, `categories`
defaulting, then id resolution. -/
def processRecord (filePath : String) (isFil : Bool) (seen : List Json)
    (recipe : Json) : RecResult :=
  match recipe with
  | .obj fields0 =>
      match (if isFil then parse_filipino_recipe fields0 else some fields0) with
      | none => .failed
      | some fields1 =>
          if (requiredFields.filter (fun f => !(Json.hasKey fields1 f))).isEmpty then
            resolveId filePath seen (if Json.hasKey fields1 "categories" then fields1
              else fields1 ++ [("categories", Json.arr [])])
          else
            .skipped [Warning.missingFields
              (match Json.get fields1 "name" with | some v => pyStr v | none => "Unknown")
              filePath (requiredFields.filter (fun f => !(Json.hasKey fields1 f)))]
  | _ => .skipped [Warning.invalidFormat filePath]

/-- Outcome of the record loop of one file: rows and warnings appended (in
order) and the final `seen_ids`; `aborted` means an exception cut the loop
short (already appended rows and warnings are kept). -/
inductive RecsOutcome where
  | finished (rows : List Row) (warns : List Warning) (seen2 : List Json)
  | aborted (rows : List Row) (warns : List Warning) (seen2 : List Json)
  | hang
deriving Repr

def recFold (filePath : String) (isFil : Bool) (seen : List Json) :
    List Json → RecsOutcome
  | [] => .finished [] [] seen
  | r :: rs =>
      match processRecord filePath isFil seen r with
      | .added row ws seen2 =>
          match recFold filePath isFil seen2 rs with
          | .finished rows ws2 seen3 => .finished (row :: rows) (ws ++ ws2) seen3
          | .aborted rows ws2 seen3 => .aborted (row :: rows) (ws ++ ws2) seen3
          | .hang => .hang
      | .skipped ws =>
          match recFold filePath isFil seen rs with
          | .finished rows ws2 seen3 => .finished rows (ws ++ ws2) seen3
          | .aborted rows ws2 seen3 => .aborted rows (ws ++ ws2) seen3
          | .hang => .hang
      | .failed => .aborted [] [] seen
      | .hang => .hang

/-- One discovered `*.json` file: its basename and its parsed content
(`none` models a `json.JSONDecodeError`). -/
structure SourceFile where
  filename : String
  content : Option Json
deriving DecidableEq, Repr

/-- `'filipino_recipes_page_' in os.path.basename(file_path).lower()`. -/
def isFilipinoFile (filename : String) : Bool :=
  containsSub (strLower filename) "filipino_recipes_page_"

/-- Interpretation of a parsed file's content (src/utils.py lines 36-38):
`recipes = data if isinstance(data, list) else data.get('recipes', [])`,
then a non-list `recipes` value is wrapped in a one-element list.  Content
that is neither a list nor a dict has no `.get` and raises `AttributeError`
(`none`), caught by the per-file handler. -/
def extractRecipes : Json → Option (List Json)
  | .arr xs => some xs
  | .obj fields =>
      match Json.get fields "recipes" with
      | none => some []
      | some (.arr xs) => some xs
      | some v => some [v]
  | _ => none

/-- Processing of one file (src/utils.py lines 29-91): returns the rows and
warnings it contributes plus the updated `seen_ids`; `none` models divergence
inside `generate_unique_id`.  Any per-file exception ends in the
`except Exception` handler, adding a generic warning for the file. -/
def processFile (seen : List Json) (f : SourceFile) :
    Option (List Row × List Warning × List Json) :=
  match f.content with
  | none => some ([], [Warning.invalidJson f.filename], seen)
  | some data =>
      match extractRecipes data with
      | none => some ([], [Warning.fileError f.filename], seen)
      | some recs =>
          match recFold f.filename (isFilipinoFile f.filename) seen recs with
          | .finished rows ws seen2 => some (rows, ws, seen2)
          | .aborted rows ws seen2 => some (rows, ws ++ [Warning.fileError f.filename], seen2)
          | .hang => none

def foldFiles : List SourceFile → List Json →
    Option (List Row × List Warning × List Json)
  | [], seen => some ([], [], seen)
  | f :: fs, seen =>
      match processFile seen f with
      | none => none
      | some (rows, ws, seen2) =>
          match foldFiles fs seen2 with
          | none => none
          | some (rows2, ws2, seen3) => some (rows ++ rows2, ws ++ ws2, seen3)

inductive LoadError where
  | notFound
  | noValidRecords
deriving DecidableEq, Repr

inductive LoadOutcome where
  | ok (recipes : List Row) (warnings : List Warning)
  | err (e : LoadError)
  | hang
deriving DecidableEq, Repr

/-- `load_recipes(data_dir)`.  The argument is the directory listing of
`*.json` files (`none`: the directory does not exist; `os.makedirs` then
creates it empty). -/
def load_recipes (dir : Option (List SourceFile)) : LoadOutcome :=
  let files := dir.getD []
  if files.isEmpty then .err .notFound
  else
    match foldFiles files [] with
    | none => .hang
    | some (rows, ws, _) => if rows.isEmpty then .err .noValidRecords else .ok rows ws

/-! Model of the regular-expression interpretation that pandas `str.contains`
applies to the search term (src/utils.py line 167; `regex=True` is the
default, so the lowered term is compiled with `re.compile` and each name is
tested with `re.search`; an invalid pattern raises `re.error`, which nothing
in `filter_recipes` catches).

The pattern language modelled is the group-free fragment of Python re:
literal characters, `.` (not matching a newline), the escapes \d \D \w \W \s
\S and escaped punctuation, character classes `[...]` with ranges, literal
handling of a leading `]` and of `-` at the edges, and `^`-negation, the
quantifiers `*` `+` `?` each with an optional non-greedy `?` suffix, and
alternation `|` (with empty alternatives).  Within this fragment the validity
judgement agrees with `re.compile`: quantifiers with nothing to repeat,
stacked quantifiers, reversed class ranges, unterminated classes, unknown
alphanumeric escapes, a trailing backslash and unbalanced parentheses are all
rejected exactly as Python rejects them.  Constructs outside the fragment
(groups, anchors, braced repetition, possessive quantifiers, octal/backref
escapes, lookaround, inline flags) are conservatively rejected, and \d \w \s
are read as their ASCII ranges; no property below instantiates a pattern in
that gap.  Greediness never affects the boolean result, so the non-greedy
markers only need to be accepted, not interpreted. -/

inductive Re where
  | eps
  | fail
  | lit (c : Char)
  | any
  | cls (neg : Bool) (ranges : List (Char × Char))
  | cat (a b : Re)
  | alt (a b : Re)
  | star (r : Re)
deriving Repr

def clsMatch (neg : Bool) (ranges : List (Char × Char)) (c : Char) : Bool :=
  let inR := ranges.any (fun pr => pr.1.toNat ≤ c.toNat && c.toNat ≤ pr.2.toNat)
  if neg then !inR else inR

def nullable : Re → Bool
  | .eps => true
  | .fail => false
  | .lit _ => false
  | .any => false
  | .cls _ _ => false
  | .cat a b => nullable a && nullable b
  | .alt a b => nullable a || nullable b
  | .star _ => true

/-- Brzozowski derivative of a pattern by one character. -/
def reDeriv (c : Char) : Re → Re
  | .eps => .fail
  | .fail => .fail
  | .lit c2 => if c == c2 then .eps else .fail
  | .any => if c == '\n' then .fail else .eps
  | .cls neg ranges => if clsMatch neg ranges c then .eps else .fail
  | .cat a b =>
      if nullable a then .alt (.cat (reDeriv c a) b) (reDeriv c b) else .cat (reDeriv c a) b
  | .alt a b => .alt (reDeriv c a) (reDeriv c b)
  | .star r => .cat (reDeriv c r) (.star r)

def reMatchFull (r : Re) (s : List Char) : Bool :=
  nullable (s.foldl (fun r c => reDeriv c r) r)

/-- Python `re.search(r, s) is not None`: some substring of `s` matches `r`.
The padding class `[^]` (an empty negated class) matches every character,
newlines included, unlike `.`. -/
def reSearch (r : Re) (s : String) : Bool :=
  reMatchFull (.cat (.star (.cls true [])) (.cat r (.star (.cls true [])))) s.data

def digitRanges : List (Char × Char) := [('0', '9')]

def wordRanges : List (Char × Char) := [('0', '9'), ('A', 'Z'), ('_', '_'), ('a', 'z')]

def spaceRanges : List (Char × Char) :=
  [('\t', '\t'), ('\n', '\n'), ('\x0b', '\x0b'), ('\x0c', '\x0c'), ('\r', '\r'), (' ', ' ')]

def isAsciiAlphaNum (c : Char) : Bool :=
  ('a'.toNat ≤ c.toNat && c.toNat ≤ 'z'.toNat) ||
  ('A'.toNat ≤ c.toNat && c.toNat ≤ 'Z'.toNat) ||
  ('0'.toNat ≤ c.toNat && c.toNat ≤ '9'.toNat)

/-- An escape in atom position: the supported classes, a rejected
alphanumeric escape (`re.error: bad escape` for unknown letters; digit
escapes are outside the subset), or an escaped literal. -/
def escAtom (e : Char) : Option Re :=
  if e == 'd' then some (.cls false digitRanges)
  else if e == 'D' then some (.cls true digitRanges)
  else if e == 'w' then some (.cls false wordRanges)
  else if e == 'W' then some (.cls true wordRanges)
  else if e == 's' then some (.cls false spaceRanges)
  else if e == 'S' then some (.cls true spaceRanges)
  else if isAsciiAlphaNum e then none
  else some (.lit e)

/-- An escape inside a character class (negated classes inside a class are
outside the subset, since a range list cannot express them). -/
def classEscape (e : Char) : Option (List (Char × Char)) :=
  if e == 'd' then some digitRanges
  else if e == 'w' then some wordRanges
  else if e == 's' then some spaceRanges
  else if isAsciiAlphaNum e then none
  else some [(e, e)]

/-- Items of a character class up to the closing `]`; a reversed range is
`re.error: bad character range`, a missing `]` is `re.error: unterminated
character set`. -/
def parseClassItems : List Char → Option (List (Char × Char) × List Char)
  | [] => none
  | ']' :: rest => some ([], rest)
  | '\\' :: [] => none
  | '\\' :: e :: rest =>
      match classEscape e with
      | none => none
      | some ranges => (parseClassItems rest).map (fun pr => (ranges ++ pr.1, pr.2))
  | c :: '-' :: d :: rest =>
      if d == ']' then
        (parseClassItems (d :: rest)).map (fun pr => ((c, c) :: ('-', '-') :: pr.1, pr.2))
      else if c.toNat ≤ d.toNat then
        (parseClassItems rest).map (fun pr => ((c, d) :: pr.1, pr.2))
      else none
  | c :: rest => (parseClassItems rest).map (fun pr => ((c, c) :: pr.1, pr.2))

/-- A character class after its `[`: optional negation, then a leading `]` is
literal, as in Python. -/
def parseClass : List Char → Option (Re × List Char)
  | '^' :: ']' :: rest =>
      (parseClassItems rest).map (fun pr => (Re.cls true ((']', ']') :: pr.1), pr.2))
  | '^' :: rest => (parseClassItems rest).map (fun pr => (Re.cls true pr.1, pr.2))
  | ']' :: rest =>
      (parseClassItems rest).map (fun pr => (Re.cls false ((']', ']') :: pr.1), pr.2))
  | rest => (parseClassItems rest).map (fun pr => (Re.cls false pr.1, pr.2))

/-- One atom starting with `c`.  A quantifier here has nothing to repeat
(`re.error: nothing to repeat`); `(` and `)` are unbalanced in the group-free
fragment (`re.error` in Python for the patterns below; balanced groups are
outside the subset); the remaining rejected metacharacters are outside the
subset. -/
def parseAtom (c : Char) (rest : List Char) : Option (Re × List Char) :=
  if c == '.' then some (.any, rest)
  else if c == '[' then parseClass rest
  else if c == '\\' then
    match rest with
    | [] => none
    | e :: rest2 => (escAtom e).map (fun r => (r, rest2))
  else if c == '*' || c == '+' || c == '?' || c == '|' || c == '(' || c == ')'
      || c == '^' || c == '$' || c == '{' || c == '}' then none
  else some (.lit c, rest)

/-- Optional quantifier (with optional non-greedy `?`) after an atom.  A
second quantifier is left in place and rejected by the next atom parse, as
Python rejects `a**` (`multiple repeat`). -/
def parseQuantSuffix (r : Re) : List Char → Re × List Char
  | '*' :: '?' :: rest => (.star r, rest)
  | '*' :: rest => (.star r, rest)
  | '+' :: '?' :: rest => (.cat r (.star r), rest)
  | '+' :: rest => (.cat r (.star r), rest)
  | '?' :: '?' :: rest => (.alt .eps r, rest)
  | '?' :: rest => (.alt .eps r, rest)
  | rest => (r, rest)

def parseAtomQ : List Char → Option (Re × List Char)
  | [] => none
  | c :: rest =>
      match parseAtom c rest with
      | none => none
      | some (r, rest2) => some (parseQuantSuffix r rest2)

/-- A concatenation of pieces up to the end or a `|`.  The fuel only bounds
the recursion (each piece consumes at least one character, so `length + 1`
always suffices). -/
def parseSeq : Nat → List Char → Option (Re × List Char)
  | _, [] => some (.eps, [])
  | _, '|' :: rest => some (.eps, '|' :: rest)
  | 0, _ => none
  | fuel + 1, s =>
      match parseAtomQ s with
      | none => none
      | some (r1, rest) =>
          match parseSeq fuel rest with
          | none => none
          | some (r2, rest2) => some (.cat r1 r2, rest2)

/-- Alternatives separated by `|` (each `|` consumes a character, so
`length + 1` alternatives suffice). -/
def parseAlt : Nat → List Char → Option (Re × List Char)
  | 0, _ => none
  | fuel + 1, s =>
      match parseSeq (s.length + 1) s with
      | none => none
      | some (r1, rest) =>
          match rest with
          | '|' :: rest2 =>
              match parseAlt fuel rest2 with
              | none => none
              | some (r2, rest3) => some (.alt r1 r2, rest3)
          | _ => some (r1, rest)

/-- Python `re.compile` on the modelled fragment; `none` is `re.error`.
Validated against `re.compile` on a battery of valid and invalid patterns. -/
def reCompile (pat : String) : Option Re :=
  match parseAlt (pat.data.length + 1) pat.data with
  | some (r, []) => some r
  | _ => none

/-! The filter/paginate engine (`filter_recipes`, src/utils.py lines 144-183). -/

structure FilterParams where
  search_term : String
  difficulty : Option String
  category : Option String
  show_favorites : Bool
  favorites : Option (List Int)
  page : Int
  per_page : Nat
deriving DecidableEq, Repr

/-- Same parameters with another `show_favorites` flag. -/
def setShowFavorites (p : FilterParams) (b : Bool) : FilterParams :=
  ⟨p.search_term, p.difficulty, p.category, b, p.favorites, p.page, p.per_page⟩

/-- `df['name'].str.lower().str.contains(term, na=False)` for one cell, with
the already-compiled pattern: a non-string name gives NaN, which `na=False`
maps to no-match. -/
def nameMatches (r : Re) (name : Json) : Bool :=
  match name with
  | .str s => reSearch r (strLower s)
  | _ => false

/-- The filtering stage of `filter_recipes` (src/utils.py lines 160-174),
producing `filtered_df`; `none` models the `re.error` raised by
`str.contains` when the lowered search term is an invalid pattern (it
propagates out of `filter_recipes`, which catches nothing). -/
def applyFilters (df : List Row) (p : FilterParams) : Option (List Row) :=
  let df1 := if p.show_favorites then
      match p.favorites with
      | some favs => df.filter (fun r => favs.any (fun n => pyEq r.id (Json.num n)))
      | none => df
    else df
  match (if p.search_term != "" then
      match reCompile (strLower p.search_term) with
      | none => none
      | some r => some (df1.filter (fun row => nameMatches r row.name))
    else some df1) with
  | none => none
  | some df2 =>
      let df3 := match p.difficulty with
        | some d => if d != "" && d != "All" then
            df2.filter (fun r => pyEq r.difficulty (Json.str d))
          else df2
        | none => df2
      let df4 := match p.category with
        | some c => if c != "" && c != "All" then
            df3.filter (fun r =>
              match r.categories with
              | .arr xs => xs.any (fun x => pyEq (Json.str c) x)
              | _ => false)
          else df3
        | none => df3
      some df4

/-- Clamped index of a Python slice bound for a sequence of length `n`. -/
def pyIdx (n : Nat) (i : Int) : Nat :=
  if i < 0 then ((n : Int) + i).toNat else min i.toNat n

/-- Python slice `l[a:b]` (also `DataFrame.iloc[a:b]`). -/
def pySlice {α : Type} (l : List α) (a b : Int) : List α :=
  let lo := pyIdx l.length a
  let hi := pyIdx l.length b
  (l.drop lo).take (hi - lo)

/-- `filter_recipes(df, ...)`: the returned page and `total_pages`, or `none`
when the search term fails to compile (the `re.error` reaches the caller; an
empty input collection returns before any filtering, so it never compiles the
term).  (`per_page = 0` would raise `ZeroDivisionError` in Python; every
property below assumes a positive `per_page`, as the spec does.) -/
def filter_recipes (df : List Row) (p : FilterParams) : Option (List Row × Nat) :=
  if df.isEmpty then some ([], 0)
  else
    match applyFilters df p with
    | none => none
    | some filtered =>
        let total_pages := (filtered.length + p.per_page - 1) / p.per_page
        let start_idx : Int := ((p.page - 1) * (p.per_page : Int))
        some (pySlice filtered start_idx (start_idx + (p.per_page : Int)), total_pages)

/-! Concrete inputs used by the witnesses and counterexamples below. -/

def demoTeaFields : List (String × Json) :=
  [("name", Json.str "Tea"), ("difficulty", Json.str "Easy"),
   ("prep_time", Json.str "1 minute"), ("cook_time", Json.str "3 minutes"),
   ("servings", Json.str "1"),
   ("ingredients", Json.arr [Json.str "tea bag", Json.str "water"]),
   ("instructions", Json.arr [Json.str "Boil water", Json.str "Steep bag"]),
   ("id", Json.num 5)]

def demoTeaFile : SourceFile := ⟨"tea.json", some (Json.arr [Json.obj demoTeaFields])⟩

def demoBadFile : SourceFile := ⟨"broken.json", none⟩

def demoEmptyFile : SourceFile := ⟨"empty.json", some (Json.arr [])⟩

/-- A file whose whole content is a single bare record object (no `recipes`
key): the shape of spec example 3. -/
def demoBareFile : SourceFile := ⟨"solo.json", some (Json.obj demoTeaFields)⟩

def demoFilRecord : List (String × Json) :=
  [("title", Json.str "Adobo"),
   ("ingredients", Json.arr [Json.str "▢ chicken", Json.str "â–¢ soy sauce"]),
   ("instructions", Json.arr [Json.str "Marinate", Json.str "Cook"])]

def demoGenRecipe : List (String × Json) :=
  [("name", Json.str "A"), ("ingredients", Json.arr [])]

def demoRow : Row := mkRow (demoTeaFields ++ [("categories", Json.arr [])]) (Json.num 5)

def demoParams : FilterParams := ⟨"", some "Easy", some "All", false, none, 1, 10⟩

theorem pyEq_refl (a : Json) : pyEq a a = true := by simp [pyEq]

theorem pyMem_congr {a b : Json} (h : pyEq a b = true) (s : List Json) :
    pyMem a s = pyMem b s := by
  simp only [pyEq, decide_eq_true_eq] at h
  simp only [pyMem, pyEq, h]

theorem pyMem_cons_self (v : Json) (s : List Json) : pyMem v (v :: s) = true := by
  simp [pyMem, pyEq_refl]

theorem pyMem_cons_of {v : Json} {s : List Json} (h : pyMem v s = true) (w : Json) :
    pyMem v (w :: s) = true := by
  simp only [pyMem, List.any_cons, Bool.or_eq_true] at h ⊢
  exact Or.inr h

theorem stripAllStr_map_str (ss : List String) :
    stripAllStr (ss.map Json.str) =
      some (ss.map (fun s => Json.str (stripGlyph s))) := by
  induction ss with
  | nil => rfl
  | cons s rest ih => simp [stripAllStr, ih]

theorem joinStrList_map_str (ss : List String) :
    joinStrList (ss.map Json.str) = some (ss.foldr (fun a b => a ++ b) "") := by
  induction ss with
  | nil => rfl
  | cons s rest ih => simp [joinStrList, ih]

/-- C2 counterexample: a file whose whole content is a single bare record
object (spec example 3's shape) is interpreted as zero candidate records —
`data.get('recipes', [])` returns the empty default, so the record is lost and
a directory holding only that file fails with `NoValidRecords` instead of
loading the record. -/
theorem extractRecipes_bare_record_cex :
    extractRecipes (Json.obj demoTeaFields) = some [] ∧
    some ([] : List Json) ≠ some [Json.obj demoTeaFields] ∧
    load_recipes (some [demoBareFile]) = .err .noValidRecords :=
  ⟨rfl, by decide, rfl⟩

/-- C2 (amended): a bare list is the candidate list; an object contributes its
`recipes` value — as-is when it is a list, wrapped in a one-element list when
present but not a list, and the empty list when the key is absent (so a bare
single record object yields zero candidates); content that is neither a list
nor an object raises an error handled at file level. -/
theorem extractRecipes_amended :
    (∀ xs, extractRecipes (Json.arr xs) = some xs) ∧
    (∀ fields, Json.get fields "recipes" = none →
      extractRecipes (Json.obj fields) = some []) ∧
    (∀ fields xs, Json.get fields "recipes" = some (Json.arr xs) →
      extractRecipes (Json.obj fields) = some xs) ∧
    (∀ fields v, Json.get fields "recipes" = some v → (∀ xs, v ≠ Json.arr xs) →
      extractRecipes (Json.obj fields) = some [v]) ∧
    (∀ v, (∀ xs, v ≠ Json.arr xs) → (∀ fs, v ≠ Json.obj fs) →
      extractRecipes v = none) := by
  refine ⟨fun xs => rfl, ?_, ?_, ?_, ?_⟩
  · intro fields h
    simp [extractRecipes, h]
  · intro fields xs h
    simp [extractRecipes, h]
  · intro fields v h hv
    cases v with
    | arr xs => exact absurd rfl (hv xs)
    | null => simp [extractRecipes, h]
    | bool b => simp [extractRecipes, h]
    | num n => simp [extractRecipes, h]
    | str s => simp [extractRecipes, h]
    | obj fs => simp [extractRecipes, h]
  · intro v ha ho
    cases v with
    | arr xs => exact absurd rfl (ha xs)
    | obj fs => exact absurd rfl (ho fs)
    | null => rfl
    | bool b => rfl
    | num n => rfl
    | str s => rfl

/-- Witness for the amended C2: an object whose `recipes` key holds a single
record object yields that record as the only candidate. -/
theorem extractRecipes_amended_witness :
    extractRecipes (Json.obj [("recipes", Json.obj demoTeaFields)]) =
      some [Json.obj demoTeaFields] :=
  extractRecipes_amended.2.2.2.1 [("recipes", Json.obj demoTeaFields)]
    (Json.obj demoTeaFields) rfl (fun _ h => Json.noConfusion h)

/-- C3 counterexample: the normalizer strips only the mis-encoded form of the
bullet glyph; an ingredient carrying the correctly decoded glyph U+25A2 is
returned unchanged, not stripped as the claim requires. -/
theorem parse_filipino_decoded_glyph_cex :
    (parse_filipino_recipe demoFilRecord).map (fun out => Json.get out "ingredients") =
      some (some (Json.arr [Json.str "▢ chicken", Json.str "soy sauce"])) ∧
    ("▢ chicken" : String) ≠ "chicken" :=
  ⟨by decide, by decide⟩

/-- C3 (amended): for an alternate record whose `ingredients` is a list of
strings, the normalizer takes `name` from `title` (placeholder
`"Unknown Filipino Recipe"` when absent) and strips every occurrence of only
the mis-encoded bullet form `'â–¢ '` from each ingredient; the correctly
decoded glyph is left alone. -/
theorem parse_filipino_recipe_amended (recipe : List (String × Json)) (ings : List String)
    (hi : Json.get recipe "ingredients" = some (Json.arr (ings.map Json.str))) :
    ∃ out, parse_filipino_recipe recipe = some out ∧
      Json.get out "name" =
        some ((Json.get recipe "title").getD (Json.str "Unknown Filipino Recipe")) ∧
      Json.get out "ingredients" =
        some (Json.arr (ings.map (fun s => Json.str (stripGlyph s)))) := by
  refine ⟨[("name", (Json.get recipe "title").getD (Json.str "Unknown Filipino Recipe")),
    ("difficulty", Json.str "Medium"),
    ("prep_time", Json.str "15 minutes"),
    ("cook_time", (Json.get recipe "cooking_time").getD (Json.str "30 minutes")),
    ("servings", (Json.get recipe "servings").getD (Json.str "4")),
    ("ingredients", Json.arr (ings.map (fun s => Json.str (stripGlyph s)))),
    ("instructions", (Json.get recipe "instructions").getD (Json.arr [])),
    ("categories", Json.arr [(Json.get recipe "category").getD (Json.str "Filipino Dishes")])],
    ?_, rfl, rfl⟩
  simp [parse_filipino_recipe, hi, filipinoIngredients, stripAllStr_map_str]

/-- Witness for the amended C3 at the Adobo record: the mis-encoded prefix of
the second ingredient is stripped, the decoded glyph of the first remains. -/
theorem parse_filipino_recipe_amended_witness :
    ∃ out, parse_filipino_recipe demoFilRecord = some out ∧
      Json.get out "name" =
        some ((Json.get demoFilRecord "title").getD (Json.str "Unknown Filipino Recipe")) ∧
      Json.get out "ingredients" =
        some (Json.arr (["▢ chicken", "â–¢ soy sauce"].map
          (fun s => Json.str (stripGlyph s)))) :=
  parse_filipino_recipe_amended demoFilRecord ["▢ chicken", "â–¢ soy sauce"] rfl

/-- C9: filtering is conjunctive — for any collection and any criteria values
X and Y, filtering with both difficulty X and category Y succeeds (the search
stage is off, so no pattern is compiled) and yields exactly the intersection
(membership-wise) of filtering with each criterion alone. -/
theorem filter_recipes_conjunctive (df : List Row) (X Y : String) (r : Row) :
    (applyFilters df ⟨"", some X, some Y, false, none, 1, 10⟩).isSome = true ∧
    (applyFilters df ⟨"", some X, none, false, none, 1, 10⟩).isSome = true ∧
    (applyFilters df ⟨"", none, some Y, false, none, 1, 10⟩).isSome = true ∧
    (r ∈ (applyFilters df ⟨"", some X, some Y, false, none, 1, 10⟩).getD [] ↔
      (r ∈ (applyFilters df ⟨"", some X, none, false, none, 1, 10⟩).getD [] ∧
       r ∈ (applyFilters df ⟨"", none, some Y, false, none, 1, 10⟩).getD [])) := by
  refine ⟨rfl, rfl, rfl, ?_⟩
  simp only [applyFilters]
  by_cases hX : (X != "" && X != "All") = true <;>
    by_cases hY : (Y != "" && Y != "All") = true <;>
      simp [hX, hY, List.mem_filter] <;> tauto

/-- C10: with `show_favorites=True` but `favorites=None` the favorites
restriction is skipped entirely — the result equals the same call with
`show_favorites=False`. -/
theorem filter_recipes_favorites_none (df : List Row) (p : FilterParams)
    (hdf : df ≠ []) (hfav : p.favorites = none) :
    filter_recipes df (setShowFavorites p true) =
      filter_recipes df (setShowFavorites p false) := by
  obtain ⟨s, d, c, sf, fav, pg, pp⟩ := p
  cases hfav
  rfl

/-- Witness for C10 at a concrete one-row collection. -/
theorem filter_recipes_favorites_none_witness :
    filter_recipes [demoRow] (setShowFavorites demoParams true) =
      filter_recipes [demoRow] (setShowFavorites demoParams false) :=
  filter_recipes_favorites_none [demoRow] demoParams (by simp) rfl

/-! Lemmas about the probe loop of `generate_unique_id`. -/

theorem probeId_of_not_mem (seen : List Json) (fuel cur : Nat)
    (h : pyMem (Json.num (cur : Int)) seen = false) :
    probeId seen (fuel + 1) cur = some cur := by
  simp [probeId, h]

theorem probeId_sound (seen : List Json) :
    ∀ fuel cur newId : Nat, probeId seen fuel cur = some newId →
      pyMem (Json.num (newId : Int)) seen = false := by
  intro fuel
  induction fuel with
  | zero => intro cur newId h; exact Option.noConfusion h
  | succ fuel ih =>
      intro cur newId h
      cases hmem : pyMem (Json.num (cur : Int)) seen with
      | true => simp only [probeId, hmem, if_true] at h; exact ih _ _ h
      | false => simp only [probeId, hmem, if_false] at h; cases h; exact hmem

theorem probeId_finds (seen : List Json) :
    ∀ fuel base : Nat, 1 ≤ base → base ≤ 1000000 →
      (∃ j : Nat, j < fuel ∧
        pyMem (Json.num (((base - 1 + j) % 1000000 + 1 : Nat) : Int)) seen = false) →
      ∃ newId : Nat, probeId seen fuel base = some newId ∧ 1 ≤ newId ∧ newId ≤ 1000000 := by
  intro fuel
  induction fuel with
  | zero =>
      rintro base _ _ ⟨j, hj, _⟩
      omega
  | succ fuel ih =>
      rintro base hb1 hb2 ⟨j, hj, hfree⟩
      cases hmem : pyMem (Json.num (base : Int)) seen with
      | false => exact ⟨base, probeId_of_not_mem seen fuel base hmem, hb1, hb2⟩
      | true =>
          have hj0 : j ≠ 0 := by
            intro h0
            rw [h0] at hfree
            have hb : (base - 1 + 0) % 1000000 + 1 = base := by omega
            rw [hb, hmem] at hfree
            exact Bool.noConfusion hfree
          have hstep : ((if base + 1 > 1000000 then 1 else base + 1) - 1 + (j - 1))
              % 1000000 + 1 = (base - 1 + j) % 1000000 + 1 := by
            split <;> omega
          have hnb1 : 1 ≤ (if base + 1 > 1000000 then 1 else base + 1) := by split <;> omega
          have hnb2 : (if base + 1 > 1000000 then 1 else base + 1) ≤ 1000000 := by
            split <;> omega
          obtain ⟨newId, hp, h1, h2⟩ := ih (if base + 1 > 1000000 then 1 else base + 1)
            hnb1 hnb2 ⟨j - 1, by omega, by rw [hstep]; exact hfree⟩
          refine ⟨newId, ?_, h1, h2⟩
          simpa [probeId, hmem] using hp

/-- C4: for a record with a string `name` and a list-of-strings `ingredients`
and any `seen_ids`, the candidate id is the MD5 digest (read as an integer) of
the UTF-8 bytes of `name` concatenated with all ingredients joined with no
separator, reduced modulo 1000000 plus 1 — hence in [1, 1000000] — and an
unseen candidate is returned unchanged. -/
theorem generate_unique_id_candidate (recipe : List (String × Json)) (seen : List Json)
    (nm : String) (ings : List String)
    (hn : Json.get recipe "name" = some (Json.str nm))
    (hi : Json.get recipe "ingredients" = some (Json.arr (ings.map Json.str))) :
    1 ≤ md5Nat (strBytes (nm ++ ings.foldr (fun a b => a ++ b) "")) % 1000000 + 1 ∧
    md5Nat (strBytes (nm ++ ings.foldr (fun a b => a ++ b) "")) % 1000000 + 1 ≤ 1000000 ∧
    (pyMem (Json.num ((md5Nat (strBytes (nm ++ ings.foldr (fun a b => a ++ b) ""))
        % 1000000 + 1 : Nat) : Int)) seen = false →
      generate_unique_id recipe seen =
        .found (md5Nat (strBytes (nm ++ ings.foldr (fun a b => a ++ b) "")) % 1000000 + 1)) := by
  refine ⟨by omega, by omega, ?_⟩
  intro hfree
  have hone : probeId seen 1000000
      (md5Nat (strBytes (nm ++ ings.foldr (fun a b => a ++ b) "")) % 1000000 + 1) =
      some (md5Nat (strBytes (nm ++ ings.foldr (fun a b => a ++ b) "")) % 1000000 + 1) :=
    probeId_of_not_mem seen 999999 _ hfree
  simp [generate_unique_id, hn, hi, pyJoinStrings, joinStrList_map_str, pyStr, hone]

/-- Witness for C4: the demo record named "A" with no ingredients against an
empty `seen_ids` returns its candidate unchanged. -/
theorem generate_unique_id_candidate_witness :
    generate_unique_id demoGenRecipe [] =
      .found (md5Nat (strBytes ("A" ++ ([] : List String).foldr (fun a b => a ++ b) ""))
        % 1000000 + 1) :=
  (generate_unique_id_candidate demoGenRecipe [] "A" [] rfl rfl).2.2 (by decide)

/-- C5: whenever `seen_ids` does not yet cover all of [1, 1000000], the linear
probe of `generate_unique_id` (increment by one, wrapping from 1000001 back to
1) terminates with an id in [1, 1000000] that is not in `seen_ids` (the
preconditions say the hash input itself is computable: `name` present and
`ingredients` joinable). -/
theorem generate_unique_id_terminates (recipe : List (String × Json)) (seen : List Json)
    (nameVal ingVal : Json) (joined : String)
    (hn : Json.get recipe "name" = some nameVal)
    (hi : Json.get recipe "ingredients" = some ingVal)
    (hj : pyJoinStrings ingVal = some joined)
    (hfree : ∃ k : Nat, 1 ≤ k ∧ k ≤ 1000000 ∧ pyMem (Json.num (k : Int)) seen = false) :
    ∃ newId : Nat, generate_unique_id recipe seen = .found newId ∧
      1 ≤ newId ∧ newId ≤ 1000000 ∧ pyMem (Json.num (newId : Int)) seen = false := by
  obtain ⟨k, hk1, hk2, hkfree⟩ := hfree
  have hb1 : 1 ≤ md5Nat (strBytes (pyStr nameVal ++ joined)) % 1000000 + 1 := by omega
  have hb2 : md5Nat (strBytes (pyStr nameVal ++ joined)) % 1000000 + 1 ≤ 1000000 := by omega
  have hcov : ((md5Nat (strBytes (pyStr nameVal ++ joined)) % 1000000 + 1) - 1 +
      ((k - 1 + 1000000 - (md5Nat (strBytes (pyStr nameVal ++ joined)) % 1000000))
        % 1000000)) % 1000000 + 1 = k := by omega
  obtain ⟨newId, hp, h1, h2⟩ := probeId_finds seen 1000000
    (md5Nat (strBytes (pyStr nameVal ++ joined)) % 1000000 + 1) hb1 hb2
    ⟨(k - 1 + 1000000 - (md5Nat (strBytes (pyStr nameVal ++ joined)) % 1000000)) % 1000000,
      by omega, by rw [hcov]; exact hkfree⟩
  refine ⟨newId, ?_, h1, h2, probeId_sound seen 1000000 _ newId hp⟩
  simp [generate_unique_id, hn, hi, hj, hp]

/-- Witness for C5: with the demo record's own candidate already taken, the
probe still terminates on a fresh id. -/
theorem generate_unique_id_terminates_witness :
    ∃ newId : Nat, generate_unique_id demoGenRecipe [Json.num 554346] = .found newId ∧
      1 ≤ newId ∧ newId ≤ 1000000 ∧
      pyMem (Json.num (newId : Int)) [Json.num 554346] = false :=
  generate_unique_id_terminates demoGenRecipe [Json.num 554346]
    (Json.str "A") (Json.arr []) "" rfl rfl rfl ⟨1, by decide, by decide, by decide⟩

/-! Lemmas about the loader's file fold. -/

theorem foldFiles_append (A B : List SourceFile) (seen : List Json) :
    foldFiles (A ++ B) seen =
      (match foldFiles A seen with
      | none => none
      | some (r1, w1, s1) =>
          match foldFiles B s1 with
          | none => none
          | some (r2, w2, s2) => some (r1 ++ r2, w1 ++ w2, s2)) := by
  induction A generalizing seen with
  | nil =>
      simp only [List.nil_append, foldFiles]
      rcases foldFiles B seen with _ | ⟨r2, w2, s2⟩ <;> simp
  | cons f fs ih =>
      simp only [List.cons_append, foldFiles]
      rcases hP : processFile seen f with _ | ⟨r0, w0, s0⟩
      · rfl
      · dsimp only
        simp only [List.append_eq]
        rw [ih s0]
        rcases hF : foldFiles fs s0 with _ | ⟨r1, w1, s1⟩
        · rfl
        · dsimp only
          rcases hB : foldFiles B s1 with _ | ⟨r2, w2, s2⟩
          · rfl
          · simp

/-- C6: the loader never fails merely because the directory is absent (an
absent directory is created and behaves exactly like an empty one); it fails
with `NotFound` exactly when there are zero eligible files; and (absent
divergence inside id generation) it fails with `NoValidRecords` exactly when
files were discovered but every one of them contributed zero usable records. -/
theorem load_recipes_error_conditions :
    (load_recipes none = load_recipes (some [])) ∧
    (∀ files, load_recipes (some files) = .err .notFound ↔ files = []) ∧
    (∀ files, files ≠ [] →
      (load_recipes (some files) = .err .noValidRecords ↔
        ∃ ws seen2, foldFiles files [] = some ([], ws, seen2))) := by
  refine ⟨rfl, ?_, ?_⟩
  · intro files
    cases files with
    | nil => simp [load_recipes]
    | cons f fs =>
        rcases hf : foldFiles (f :: fs) [] with _ | ⟨rows, ws, seen⟩
        · simp [load_recipes, hf]
        · cases rows <;> simp [load_recipes, hf]
  · intro files hne
    have hie : files.isEmpty = false := by
      cases files
      · exact absurd rfl hne
      · rfl
    rcases hf : foldFiles files [] with _ | ⟨rows, ws, seen2⟩
    · constructor
      · intro h
        simp [load_recipes, hie, hf] at h
      · rintro ⟨ws1, s1, hcon⟩
        exact Option.noConfusion hcon
    · cases rows with
      | nil =>
          constructor
          · intro _
            exact ⟨ws, seen2, rfl⟩
          · intro _
            simp [load_recipes, hie, hf]
      | cons r rs =>
          constructor
          · intro h
            simp [load_recipes, hie, hf] at h
          · rintro ⟨ws1, s1, hcon⟩
            exact List.noConfusion (congrArg Prod.fst (Option.some.inj hcon))

/-- Witness for C6: a directory with one well-formed but empty file is
non-empty yet yields `NoValidRecords`. -/
theorem load_recipes_error_conditions_witness :
    load_recipes (some [demoEmptyFile]) = .err .noValidRecords :=
  (load_recipes_error_conditions.2.2 [demoEmptyFile] (by simp)).mpr ⟨[], [], rfl⟩

/-- C7: a parse failure in one file is non-fatal: if the load of the other
files succeeds with some rows, then the load with the unparseable file
inserted still succeeds with exactly the same rows, and the only change to the
warnings is the parse warning for that file, inserted at its position. -/
theorem load_recipes_parse_failure_nonfatal
    (before after : List SourceFile) (bad : SourceFile) (hbad : bad.content = none)
    (rows : List Row) (ws : List Warning)
    (h : load_recipes (some (before ++ after)) = .ok rows ws) :
    ∃ ws1 ws2, ws = ws1 ++ ws2 ∧
      load_recipes (some (before ++ bad :: after)) =
        .ok rows (ws1 ++ Warning.invalidJson bad.filename :: ws2) := by
  have hie2 : (before ++ bad :: after).isEmpty = false := by
    cases before <;> rfl
  by_cases hie : (before ++ after).isEmpty = true
  · exfalso
    simp [load_recipes, hie] at h
  · have hie' : (before ++ after).isEmpty = false := by
      cases hh : (before ++ after).isEmpty
      · rfl
      · exact absurd hh hie
    rcases hf : foldFiles (before ++ after) [] with _ | ⟨rows0, ws0, seen0⟩
    · exfalso
      simp [load_recipes, hie', hf] at h
    · cases rows0 with
      | nil =>
          exfalso
          simp [load_recipes, hie', hf] at h
      | cons r0 rs0 =>
          have hok : r0 :: rs0 = rows ∧ ws0 = ws := by
            simpa [load_recipes, hie', hf] using h
          obtain ⟨hrows, hws⟩ := hok
          rw [foldFiles_append] at hf
          rcases hA : foldFiles before [] with _ | ⟨r1, w1, s1⟩ <;> simp only [hA] at hf
          · exact Option.noConfusion hf
          · rcases hB : foldFiles after s1 with _ | ⟨r2, w2, s2⟩ <;> simp only [hB] at hf
            · exact Option.noConfusion hf
            · simp only [Option.some.injEq, Prod.mk.injEq] at hf
              obtain ⟨h1, h2, h3⟩ := hf
              refine ⟨w1, w2, ?_, ?_⟩
              · rw [← hws, ← h2]
              · have hbadfold : foldFiles (bad :: after) s1 =
                    some (r2, Warning.invalidJson bad.filename :: w2, s2) := by
                  simp [foldFiles, processFile, hbad, hB]
                have hfold2 : foldFiles (before ++ bad :: after) [] =
                    some (r1 ++ r2, w1 ++ Warning.invalidJson bad.filename :: w2, s2) := by
                  simp only [foldFiles_append, hA, hbadfold]
                have hne2 : (r1 ++ r2).isEmpty = false := by
                  rw [h1]
                  rfl
                simp [load_recipes, hie2, hfold2, hne2, ← hrows, h1]

/-- Witness for C7: inserting an unparseable file after a good one leaves the
loaded rows unchanged and only adds the parse warning. -/
theorem load_recipes_parse_failure_nonfatal_witness :
    ∃ ws1 ws2, ([] : List Warning) = ws1 ++ ws2 ∧
      load_recipes (some ([demoTeaFile] ++ demoBadFile :: [])) =
        .ok [demoRow] (ws1 ++ Warning.invalidJson demoBadFile.filename :: ws2) :=
  load_recipes_parse_failure_nonfatal [demoTeaFile] [] demoBadFile rfl [demoRow] []
    (by decide)

/-! Invariant chain for C1: every id appended by the loader is fresh with
respect to the running `seen_ids`, and `seen_ids` only grows, so ids are
pairwise distinct across the whole collection. -/

theorem pyEq_comm (a b : Json) : pyEq a b = pyEq b a := by
  simp only [pyEq]
  exact decide_eq_decide.mpr eq_comm

theorem pyEq_false_of_split {a b : Json} {s : List Json}
    (ha : pyMem a s = true) (hb : pyMem b s = false) : pyEq a b = false := by
  cases h : pyEq a b
  · rfl
  · rw [pyEq_comm] at h
    rw [pyMem_congr h, ha] at hb
    exact Bool.noConfusion hb

theorem generate_unique_id_found_not_mem (recipe : List (String × Json))
    (seen : List Json) (newId : Nat)
    (h : generate_unique_id recipe seen = .found newId) :
    pyMem (Json.num (newId : Int)) seen = false := by
  rcases hn : Json.get recipe "name" with _ | nameVal <;>
    rcases hi : Json.get recipe "ingredients" with _ | ingVal <;>
      simp only [generate_unique_id, hn, hi] at h
  · exact GenResult.noConfusion h
  · exact GenResult.noConfusion h
  · exact GenResult.noConfusion h
  · rcases hj : pyJoinStrings ingVal with _ | joined <;> simp only [hj] at h
    · exact GenResult.noConfusion h
    · rcases hp : probeId seen 1000000
          (md5Nat (strBytes (pyStr nameVal ++ joined)) % 1000000 + 1) with _ | x <;>
        simp only [hp] at h
      · exact GenResult.noConfusion h
      · exact (GenResult.found.inj h) ▸ probeId_sound seen 1000000 _ x hp

theorem resolveId_added_inv (filePath : String) (seen : List Json)
    (fields2 : List (String × Json)) (row : Row) (ws : List Warning) (seen2 : List Json)
    (h : resolveId filePath seen fields2 = .added row ws seen2) :
    pyMem row.id seen = false ∧ pyMem row.id seen2 = true ∧ row.id ≠ Json.null ∧
      (∀ v, pyMem v seen = true → pyMem v seen2 = true) := by
  unfold resolveId at h
  by_cases hnull : (Json.get fields2 "id").getD Json.null = Json.null
  · rw [if_pos hnull] at h
    cases hg : generate_unique_id fields2 seen with
    | found newId =>
        simp only [hg] at h
        obtain ⟨hrow, hws, hseen⟩ := RecResult.added.inj h
        subst hrow
        subst hseen
        refine ⟨generate_unique_id_found_not_mem fields2 seen newId hg, ?_, ?_, ?_⟩
        · exact pyMem_cons_self _ _
        · exact fun hc => Json.noConfusion hc
        · exact fun v hv => pyMem_cons_of hv _
    | typeError =>
        simp only [hg] at h
        exact RecResult.noConfusion h
    | hang =>
        simp only [hg] at h
        exact RecResult.noConfusion h
  · rw [if_neg hnull] at h
    by_cases hhash : isHashable ((Json.get fields2 "id").getD Json.null) = true
    · rw [if_pos hhash] at h
      by_cases hmem : pyMem ((Json.get fields2 "id").getD Json.null) seen = true
      · rw [if_pos hmem] at h
        cases hg : generate_unique_id fields2 seen with
        | found newId =>
            simp only [hg] at h
            obtain ⟨hrow, hws, hseen⟩ := RecResult.added.inj h
            subst hrow
            subst hseen
            refine ⟨generate_unique_id_found_not_mem fields2 seen newId hg, ?_, ?_, ?_⟩
            · exact pyMem_cons_self _ _
            · exact fun hc => Json.noConfusion hc
            · exact fun v hv => pyMem_cons_of hv _
        | typeError =>
            simp only [hg] at h
            exact RecResult.noConfusion h
        | hang =>
            simp only [hg] at h
            exact RecResult.noConfusion h
      · rw [if_neg hmem] at h
        obtain ⟨hrow, hws, hseen⟩ := RecResult.added.inj h
        subst hrow
        subst hseen
        refine ⟨Bool.not_eq_true _ ▸ hmem, pyMem_cons_self _ _, hnull, ?_⟩
        exact fun v hv => pyMem_cons_of hv _
    · rw [if_neg hhash] at h
      exact RecResult.noConfusion h

theorem processRecord_added_inv (filePath : String) (isFil : Bool) (seen : List Json)
    (recipe : Json) (row : Row) (ws : List Warning) (seen2 : List Json)
    (h : processRecord filePath isFil seen recipe = .added row ws seen2) :
    pyMem row.id seen = false ∧ pyMem row.id seen2 = true ∧ row.id ≠ Json.null ∧
      (∀ v, pyMem v seen = true → pyMem v seen2 = true) := by
  cases recipe with
  | obj fields0 =>
      simp only [processRecord] at h
      rcases hnorm : (if isFil then parse_filipino_recipe fields0 else some fields0)
        with _ | fields1 <;> simp only [hnorm] at h
      · exact RecResult.noConfusion h
      by_cases hmiss :
          (requiredFields.filter (fun f => !(Json.hasKey fields1 f))).isEmpty = true
      · rw [if_pos hmiss] at h
        exact resolveId_added_inv filePath seen _ row ws seen2 h
      · rw [if_neg hmiss] at h
        exact RecResult.noConfusion h
  | null => exact RecResult.noConfusion h
  | bool b => exact RecResult.noConfusion h
  | num n => exact RecResult.noConfusion h
  | str s => exact RecResult.noConfusion h
  | arr xs => exact RecResult.noConfusion h

theorem recFold_inv (filePath : String) (isFil : Bool) :
    ∀ (recs : List Json) (seen : List Json) (rows : List Row) (ws : List Warning)
      (seen2 : List Json),
      (recFold filePath isFil seen recs = .finished rows ws seen2 ∨
       recFold filePath isFil seen recs = .aborted rows ws seen2) →
      (∀ v, pyMem v seen = true → pyMem v seen2 = true) ∧
      (∀ r ∈ rows, pyMem r.id seen = false ∧ pyMem r.id seen2 = true ∧ r.id ≠ Json.null) ∧
      List.Pairwise (fun a b => pyEq a.id b.id = false) rows := by
  intro recs
  induction recs with
  | nil =>
      rintro seen rows ws seen2 (h | h)
      · obtain ⟨h1, h2, h3⟩ := RecsOutcome.finished.inj h
        subst h1
        subst h3
        exact ⟨fun v hv => hv, by simp, by simp⟩
      · exact RecsOutcome.noConfusion h
  | cons r rs ih =>
      intro seen rows ws seen2 h
      cases hp : processRecord filePath isFil seen r with
      | added row0 ws0 seenA =>
          obtain ⟨hA1, hA2, hA3, hAmono⟩ := processRecord_added_inv _ _ _ _ _ _ _ hp
          cases hrest : recFold filePath isFil seenA rs with
          | finished rows1 ws1 seen3 =>
              obtain ⟨mono1, hids, hpw⟩ := ih seenA rows1 ws1 seen3 (Or.inl hrest)
              simp only [recFold, hp, hrest] at h
              rcases h with h | h
              · obtain ⟨h1, h2, h3⟩ := RecsOutcome.finished.inj h
                subst h1
                subst h3
                refine ⟨fun v hv => mono1 v (hAmono v hv), ?_, ?_⟩
                · intro r1 hr1
                  rcases List.mem_cons.mp hr1 with rfl | hmem
                  · exact ⟨hA1, mono1 _ hA2, hA3⟩
                  · obtain ⟨hx1, hx2, hx3⟩ := hids r1 hmem
                    refine ⟨?_, hx2, hx3⟩
                    cases hc : pyMem r1.id seen
                    · rfl
                    · rw [hAmono r1.id hc] at hx1
                      exact Bool.noConfusion hx1
                · refine List.pairwise_cons.mpr ⟨?_, hpw⟩
                  intro r1 hmem
                  exact pyEq_false_of_split hA2 (hids r1 hmem).1
              · exact RecsOutcome.noConfusion h
          | aborted rows1 ws1 seen3 =>
              obtain ⟨mono1, hids, hpw⟩ := ih seenA rows1 ws1 seen3 (Or.inr hrest)
              simp only [recFold, hp, hrest] at h
              rcases h with h | h
              · exact RecsOutcome.noConfusion h
              · obtain ⟨h1, h2, h3⟩ := RecsOutcome.aborted.inj h
                subst h1
                subst h3
                refine ⟨fun v hv => mono1 v (hAmono v hv), ?_, ?_⟩
                · intro r1 hr1
                  rcases List.mem_cons.mp hr1 with rfl | hmem
                  · exact ⟨hA1, mono1 _ hA2, hA3⟩
                  · obtain ⟨hx1, hx2, hx3⟩ := hids r1 hmem
                    refine ⟨?_, hx2, hx3⟩
                    cases hc : pyMem r1.id seen
                    · rfl
                    · rw [hAmono r1.id hc] at hx1
                      exact Bool.noConfusion hx1
                · refine List.pairwise_cons.mpr ⟨?_, hpw⟩
                  intro r1 hmem
                  exact pyEq_false_of_split hA2 (hids r1 hmem).1
          | hang =>
              simp only [recFold, hp, hrest] at h
              rcases h with h | h <;> exact RecsOutcome.noConfusion h
      | skipped ws0 =>
          cases hrest : recFold filePath isFil seen rs with
          | finished rows1 ws1 seen3 =>
              simp only [recFold, hp, hrest] at h
              rcases h with h | h
              · obtain ⟨h1, h2, h3⟩ := RecsOutcome.finished.inj h
                subst h1
                subst h3
                exact ih seen _ _ _ (Or.inl hrest)
              · exact RecsOutcome.noConfusion h
          | aborted rows1 ws1 seen3 =>
              simp only [recFold, hp, hrest] at h
              rcases h with h | h
              · exact RecsOutcome.noConfusion h
              · obtain ⟨h1, h2, h3⟩ := RecsOutcome.aborted.inj h
                subst h1
                subst h3
                exact ih seen _ _ _ (Or.inr hrest)
          | hang =>
              simp only [recFold, hp, hrest] at h
              rcases h with h | h <;> exact RecsOutcome.noConfusion h
      | failed =>
          simp only [recFold, hp] at h
          rcases h with h | h
          · exact RecsOutcome.noConfusion h
          · obtain ⟨h1, h2, h3⟩ := RecsOutcome.aborted.inj h
            subst h1
            subst h3
            exact ⟨fun v hv => hv, by simp, by simp⟩
      | hang =>
          simp only [recFold, hp] at h
          rcases h with h | h <;> exact RecsOutcome.noConfusion h

theorem processFile_inv (seen : List Json) (f : SourceFile) (rows : List Row)
    (ws : List Warning) (seen2 : List Json)
    (h : processFile seen f = some (rows, ws, seen2)) :
    (∀ v, pyMem v seen = true → pyMem v seen2 = true) ∧
    (∀ r ∈ rows, pyMem r.id seen = false ∧ pyMem r.id seen2 = true ∧ r.id ≠ Json.null) ∧
    List.Pairwise (fun a b => pyEq a.id b.id = false) rows := by
  unfold processFile at h
  rcases hc : f.content with _ | data <;> rw [hc] at h
  · simp only [Option.some.injEq, Prod.mk.injEq] at h
    obtain ⟨h1, h2, h3⟩ := h
    subst h1
    subst h3
    exact ⟨fun v hv => hv, by simp, by simp⟩
  · rcases he : extractRecipes data with _ | recs <;> simp only [he] at h
    · simp only [Option.some.injEq, Prod.mk.injEq] at h
      obtain ⟨h1, h2, h3⟩ := h
      subst h1
      subst h3
      exact ⟨fun v hv => hv, by simp, by simp⟩
    · cases hrec : recFold f.filename (isFilipinoFile f.filename) seen recs with
      | finished rows1 ws1 seen3 =>
          simp only [hrec, Option.some.injEq, Prod.mk.injEq] at h
          obtain ⟨h1, h2, h3⟩ := h
          subst h1
          subst h3
          exact recFold_inv f.filename (isFilipinoFile f.filename) recs seen _ _ _
            (Or.inl hrec)
      | aborted rows1 ws1 seen3 =>
          simp only [hrec, Option.some.injEq, Prod.mk.injEq] at h
          obtain ⟨h1, h2, h3⟩ := h
          subst h1
          subst h3
          exact recFold_inv f.filename (isFilipinoFile f.filename) recs seen _ _ _
            (Or.inr hrec)
      | hang =>
          simp only [hrec] at h
          exact Option.noConfusion h

theorem foldFiles_inv :
    ∀ (files : List SourceFile) (seen : List Json) (rows : List Row)
      (ws : List Warning) (seen2 : List Json),
      foldFiles files seen = some (rows, ws, seen2) →
      (∀ v, pyMem v seen = true → pyMem v seen2 = true) ∧
      (∀ r ∈ rows, pyMem r.id seen = false ∧ pyMem r.id seen2 = true ∧ r.id ≠ Json.null) ∧
      List.Pairwise (fun a b => pyEq a.id b.id = false) rows := by
  intro files
  induction files with
  | nil =>
      intro seen rows ws seen2 h
      simp only [foldFiles, Option.some.injEq, Prod.mk.injEq] at h
      obtain ⟨h1, h2, h3⟩ := h
      subst h1
      subst h3
      exact ⟨fun v hv => hv, by simp, by simp⟩
  | cons f fs ih =>
      intro seen rows ws seen2 h
      rcases hp : processFile seen f with _ | ⟨r1, w1, s1⟩ <;> simp only [foldFiles, hp] at h
      · exact Option.noConfusion h
      rcases hf : foldFiles fs s1 with _ | ⟨r2, w2, s2⟩ <;> simp only [hf] at h
      · exact Option.noConfusion h
      simp only [Option.some.injEq, Prod.mk.injEq] at h
      obtain ⟨h1, h2, h3⟩ := h
      subst h1
      subst h3
      obtain ⟨monoA, hidsA, hpwA⟩ := processFile_inv seen f r1 w1 s1 hp
      obtain ⟨monoB, hidsB, hpwB⟩ := ih s1 _ _ _ hf
      refine ⟨fun v hv => monoB v (monoA v hv), ?_, ?_⟩
      · intro r0 hr0
        rcases List.mem_append.mp hr0 with hmem | hmem
        · obtain ⟨hx1, hx2, hx3⟩ := hidsA r0 hmem
          exact ⟨hx1, monoB _ hx2, hx3⟩
        · obtain ⟨hx1, hx2, hx3⟩ := hidsB r0 hmem
          refine ⟨?_, hx2, hx3⟩
          cases hc : pyMem r0.id seen
          · rfl
          · rw [monoA r0.id hc] at hx1
            exact Bool.noConfusion hx1
      · refine List.pairwise_append.mpr ⟨hpwA, hpwB, ?_⟩
        intro a ha b hb
        exact pyEq_false_of_split (hidsA a ha).2.1 (hidsB b hb).1

/-- C1: every successful load yields a collection in which every record's id
is non-null and no two records have equal ids under Python equality — across
the whole collection, not just within one source file. -/
theorem load_recipes_unique_ids (dir : Option (List SourceFile)) (rows : List Row)
    (ws : List Warning) (h : load_recipes dir = .ok rows ws) :
    (∀ r ∈ rows, r.id ≠ Json.null) ∧
    List.Pairwise (fun a b => pyEq a.id b.id = false) rows := by
  by_cases hie : (dir.getD []).isEmpty = true
  · exfalso
    simp [load_recipes, hie] at h
  · have hie2 : (dir.getD []).isEmpty = false := by
      cases hh : (dir.getD []).isEmpty
      · rfl
      · exact absurd hh hie
    rcases hf : foldFiles (dir.getD []) [] with _ | ⟨rows0, ws0, seen0⟩
    · exfalso
      simp [load_recipes, hie2, hf] at h
    · cases rows0 with
      | nil =>
          exfalso
          simp [load_recipes, hie2, hf] at h
      | cons r0 rs0 =>
          have hok : r0 :: rs0 = rows ∧ ws0 = ws := by
            simpa [load_recipes, hie2, hf] using h
          obtain ⟨hids, hpw⟩ := (foldFiles_inv (dir.getD []) [] (r0 :: rs0) ws0 seen0 hf).2
          rw [← hok.1]
          exact ⟨fun r hr => (hids r hr).2.2, hpw⟩

/-- Witness for C1 at a one-file directory with an explicit id. -/
theorem load_recipes_unique_ids_witness :
    (∀ r ∈ [demoRow], r.id ≠ Json.null) ∧
    List.Pairwise (fun a b => pyEq a.id b.id = false) [demoRow] :=
  load_recipes_unique_ids (some [demoTeaFile]) [demoRow] [] (by decide)

/-! Lemmas for the pagination contract (C8). -/

